import Mathlib

/-!
Verification of the NBT editor (`src/main.rs`) against its specification.

The repository is a single-file egui application that loads NBT (named
binary tag) files and renders them as a collapsible tree.  The external
collaborators (the `nbt` codec crate, the egui / egui_dock toolkit) are
modelled at their interface boundary; everything else is translated
directly from `src/main.rs`.

Modelling conventions:
* Render calls made against the immediate-mode UI are reified as a list of
  abstract instructions (`Instr`).  `ui.push_id(n, body)` becomes the pair
  `pushIdOpen n` / `pushIdClose` around the body's instructions, and
  `ui.collapsing(label, body)` becomes `collapsingOpen label` /
  `collapsingClose` around the body's instructions (the body is emitted
  unconditionally: it describes the traversal the walker performs for the
  region's contents).
* Machine integers (`i8`/`i16`/`i32`/`i64`) are modelled as `Int`; the code
  only ever formats them with `Display`, which agrees with `toString` on
  `Int`.  IEEE-754 payloads (`f32`/`f64`) are carried as their rendered
  display text, since the code consumes nothing but their `Display` output.
* Byte streams are lists of `Nat` byte values.
-/

/-- One abstract render instruction emitted towards the immediate-mode UI
collaborator. -/
inductive Instr where
  | label (text : String)
  | pushIdOpen (id : Nat)
  | pushIdClose
  | collapsingOpen (text : String)
  | collapsingClose
deriving DecidableEq

/-- The tagged value model of the `nbt` crate (`nbt::tag::NBTValue`), as used
by `src/main.rs`: scalar variants, a string variant, homogeneous primitive
arrays, and the two composite variants.  A `compound` carries its entries as
an ordered list of (name, value) pairs, preserving insertion order. -/
inductive NBTValue where
  | byte (n : Int)
  | short (n : Int)
  | int (n : Int)
  | long (n : Int)
  | float (display : String)
  | double (display : String)
  | string (s : String)
  | list (xs : List NBTValue)
  | compound (entries : List (String × NBTValue))
  | byteArray (xs : List Int)
  | intArray (xs : List Int)
  | longArray (xs : List Int)

/-- The root map type of the `nbt` crate (`nbt::tag::NBTMap`): an ordered
sequence of named tags, iterated in stored order by `map.content`. -/
structure NBTMap where
  content : List (String × NBTValue)

/-- `NBTMap::new()`: an empty map. -/
def NBTMap.new : NBTMap := ⟨[]⟩

mutual

/-- Size of one tagged value, used as the termination measure of the
tree walker. -/
def valSize : NBTValue → Nat
  | .byte _ => 1
  | .short _ => 1
  | .int _ => 1
  | .long _ => 1
  | .float _ => 1
  | .double _ => 1
  | .string _ => 1
  | .list xs => 1 + listValSize xs
  | .compound m => 1 + entriesSize m
  | .byteArray _ => 1
  | .intArray _ => 1
  | .longArray _ => 1

/-- Total size of a list of tagged values. -/
def listValSize : List NBTValue → Nat
  | [] => 0
  | x :: rest => valSize x + listValSize rest + 1

/-- Total size of a list of named tagged values. -/
def entriesSize : List (String × NBTValue) → Nat
  | [] => 0
  | (_, v) :: rest => valSize v + entriesSize rest + 1

end

theorem entriesSize_map_pair (xs : List NBTValue) :
    entriesSize (xs.map fun v => ("", v)) = listValSize xs := by
  induction xs with
  | nil => rfl
  | cons x rest ih => simp [entriesSize, listValSize, ih]

/-- The `for long in array` loop inside `NBTEditor::push_array`: for each
element the counter is incremented and the element's display text is emitted
inside `push_id(counter)`. -/
def array_loop (array : List Int) (counter : Nat) : List Instr :=
  match array with
  | [] => []
  | x :: rest =>
      [Instr.pushIdOpen (counter + 1), Instr.label (toString x), Instr.pushIdClose]
        ++ array_loop rest (counter + 1)

/-- `NBTEditor::push_array` from `src/main.rs`: increments the counter, opens
`push_id(counter)`, and runs the element loop inside it. -/
def push_array (array : List Int) (counter : Nat) : List Instr :=
  [Instr.pushIdOpen (counter + 1)] ++ array_loop array (counter + 1)
    ++ [Instr.pushIdClose]

mutual

/-- `NBTEditor::push_nbt_value` from `src/main.rs`: formats the optional
`"name: "` label, then dispatches on the tag variant.  `Byte` wraps its line
in `push_id(counter)`; the other numeric scalars emit a bare labeled line;
`String` emits the raw string; `List` and `Compound` delegate to
`push_collapsing` (the list's elements paired with the empty name, exactly
as `std::iter::zip(vec![""; len], list)` pairs them); the three array
variants delegate to `push_array`. -/
def push_nbt_value (name : String) (tag : NBTValue) (counter : Nat) : List Instr :=
  let label := if name = "" then "" else name ++ ": "
  match tag with
  | .byte n =>
      [Instr.pushIdOpen counter, Instr.label (label ++ toString n), Instr.pushIdClose]
  | .short n => [Instr.label (label ++ toString n)]
  | .int n => [Instr.label (label ++ toString n)]
  | .long n => [Instr.label (label ++ toString n)]
  | .float d => [Instr.label (label ++ d)]
  | .double d => [Instr.label (label ++ d)]
  | .string s => [Instr.label s]
  | .list xs =>
      push_collapsing label (xs.map fun v => ("", v)) counter
  | .compound m =>
      let label := if label = "" then toString m.length ++ " entries" else label
      push_collapsing label m counter
  | .byteArray a => push_array a counter
  | .intArray a => push_array a counter
  | .longArray a => push_array a counter
termination_by (valSize tag, 1)
decreasing_by
  all_goals simp_wf
  all_goals first
    | (apply Prod.Lex.right; omega)
    | (apply Prod.Lex.left; simp only [valSize, entriesSize, entriesSize_map_pair]; omega)
    | (apply Prod.Lex.left; omega)

/-- `NBTEditor::push_collapsing` from `src/main.rs`: increments the counter,
opens `push_id(counter)` and a collapsing region labeled `label`, and runs
the element loop inside it. -/
def push_collapsing (label : String) (elements : List (String × NBTValue))
    (counter : Nat) : List Instr :=
  [Instr.pushIdOpen (counter + 1), Instr.collapsingOpen label]
    ++ collapsing_loop elements (counter + 1)
    ++ [Instr.collapsingClose, Instr.pushIdClose]
termination_by (entriesSize elements, 2)
decreasing_by
  all_goals simp_wf
  all_goals first
    | (apply Prod.Lex.right; omega)
    | (apply Prod.Lex.left; simp only [valSize, entriesSize, entriesSize_map_pair]; omega)
    | (apply Prod.Lex.left; omega)

/-- The `for (key, value) in elements` loop inside `push_collapsing`: for
each element the counter is incremented, the element is wrapped in
`push_id(counter)`, and `push_nbt_value` is invoked with that counter. -/
def collapsing_loop (elements : List (String × NBTValue)) (counter : Nat) :
    List Instr :=
  match elements with
  | [] => []
  | (key, value) :: rest =>
      ([Instr.pushIdOpen (counter + 1)]
        ++ push_nbt_value key value (counter + 1)
        ++ [Instr.pushIdClose])
      ++ collapsing_loop rest (counter + 1)
termination_by (entriesSize elements, 1)
decreasing_by
  all_goals simp_wf
  all_goals first
    | (apply Prod.Lex.right; omega)
    | (apply Prod.Lex.left; simp only [valSize, entriesSize, entriesSize_map_pair]; omega)
    | (apply Prod.Lex.left; omega)

end

/-- The `for (key, value) in &map.content` loop of `NBTEditor::push_nbt_map`:
each entry is dispatched through the per-variant match, every arm of which
calls `push_nbt_value(key, value, ui, counter)` with the same counter (the
counter is passed by value and never incremented in this loop). -/
def push_nbt_map_loop (entries : List (String × NBTValue)) (counter : Nat) :
    List Instr :=
  match entries with
  | [] => []
  | (key, value) :: rest =>
      (match value with
        | NBTValue.byteArray _ => push_nbt_value key value counter
        | NBTValue.list _ => push_nbt_value key value counter
        | NBTValue.compound _ => push_nbt_value key value counter
        | NBTValue.intArray _ => push_nbt_value key value counter
        | NBTValue.longArray _ => push_nbt_value key value counter
        | _ => push_nbt_value key value counter)
      ++ push_nbt_map_loop rest counter

/-- `NBTEditor::push_nbt_map` from `src/main.rs`: runs the entry loop over
`map.content` with the counter it was handed. -/
def push_nbt_map (map : NBTMap) (counter : Nat) : List Instr :=
  push_nbt_map_loop map.content counter

/-- Spec-side definition for the refinement claim: a plain loop that calls
`push_nbt_value` once per (key, value) entry of the map, in stored order,
with no per-variant dispatch. -/
def push_nbt_map_plain_loop (map : NBTMap) (counter : Nat) : List Instr :=
  (map.content.map fun kv => push_nbt_value kv.1 kv.2 counter).flatten

/-- Auxiliary walk for `idsOf`: threads the stack of currently-open
`push_id` scopes and records, for every `pushIdOpen`, the full identity
(the stack of pushed id values) that egui derives for that scope. -/
def idsOfAux : List Instr → List Nat → List (List Nat)
  | [], _ => []
  | Instr.pushIdOpen n :: rest, stack =>
      (stack ++ [n]) :: idsOfAux rest (stack ++ [n])
  | Instr.pushIdClose :: rest, stack => idsOfAux rest stack.dropLast
  | _ :: rest, stack => idsOfAux rest stack

/-- The identities assigned during one render pass: for each `push_id` call
in the instruction sequence, the stack of pushed id values in scope at that
call (egui hashes exactly this stack into the widget identity). -/
def idsOf (instrs : List Instr) : List (List Nat) := idsOfAux instrs []

/-- Which decompression envelope `read_nbt_file` dispatches to. -/
inductive Decoder where
  | gzip
  | zlib
  | raw
deriving DecidableEq

/-- The error type of `nbt::Result` as observable from `src/main.rs`:
an I/O failure (file open, the 2-byte `read_exact`, the seek) or a
decompression/decode failure from the codec. -/
inductive NbtError where
  | ioError
  | decodeError
deriving DecidableEq

/-- The external codec collaborator (`NBTMap::from_gzip_reader`,
`from_zlib_reader`, `from_reader`): given the chosen envelope, the stream
position at which it starts reading, and the stream's bytes, it returns a
decoded map or its own failure.  It is a parameter of the ingest model. -/
def Codec : Type := Decoder → Nat → List Nat → Except NbtError NBTMap

/-- `GZIP_SIGNATURE` from `src/main.rs`. -/
def GZIP_SIGNATURE : List Nat := [0x1f, 0x8b]

/-- `ZLIB_SIGNATURES` from `src/main.rs`. -/
def ZLIB_SIGNATURES : List (List Nat) :=
  [[0x78, 0x01], [0x78, 0x5e], [0x78, 0x9c], [0x78, 0xda]]

/-- `NBTEditor::read_nbt_file` from `src/main.rs`: reads the first two bytes
(`read_exact` fails when the stream holds fewer than two bytes), seeks back
to position 0, and dispatches on the signature: gzip signature to the gzip
path, any of the four zlib signatures to the zlib path, anything else to the
raw path.  The chosen codec path is invoked at stream position 0. -/
def read_nbt_file (codec : Codec) (bytes : List Nat) : Except NbtError NBTMap :=
  match bytes with
  | b0 :: b1 :: _ =>
      let buffer := [b0, b1]
      let pos := 0
      if buffer = GZIP_SIGNATURE then codec Decoder.gzip pos bytes
      else if ZLIB_SIGNATURES.any fun signature => signature = buffer then
        codec Decoder.zlib pos bytes
      else codec Decoder.raw pos bytes
  | _ => Except.error NbtError.ioError

/-- The egui_dock `DockState<String>` collaborator, modelled at its
interface boundary as the single leaf of its main surface: the ordered tab
titles it holds plus which slot is active. -/
structure DockState where
  tabs : List String
  active : Option Nat
deriving DecidableEq

/-- `DockState::new(tabs)`: a fresh dock holding the given tabs on its main
surface, the first one focused when any exists. -/
def DockState.new (tabs : List String) : DockState :=
  ⟨tabs, if tabs.isEmpty then none else some 0⟩

/-- Search helper for `find_tab`: the index of the first slot holding the
title, if any. -/
def find_tab_in : List String → String → Option Nat
  | [], _ => none
  | t :: rest, title =>
      if t = title then some 0 else (find_tab_in rest title).map (· + 1)

/-- `DockState::find_tab(&title)`: the location of the title's tab slot. -/
def DockState.find_tab (st : DockState) (title : String) : Option Nat :=
  find_tab_in st.tabs title

/-- `DockState::set_active_tab(location)`: marks the given slot as the
visible (active) one. -/
def DockState.set_active_tab (st : DockState) (location : Nat) : DockState :=
  { st with active := some location }

/-- `DockState::push_to_focused_leaf(title)`: places the title into the
currently focused leaf, as its newly active last slot. -/
def DockState.push_to_focused_leaf (st : DockState) (title : String) : DockState :=
  { tabs := st.tabs ++ [title], active := some st.tabs.length }

/-- The `NBTEditor` application state from `src/main.rs`: the `Tabs.buffers`
map (a `BTreeMap<String, NBTMap>`, modelled as a key-sorted association
list) and the egui_dock state. -/
structure NBTEditor where
  buffers : List (String × NBTMap)
  state : DockState

/-- Insertion into `BTreeMap<String, NBTMap>`: keeps keys sorted and
replaces the value on an existing key. -/
def btree_insert (m : List (String × NBTMap)) (key : String) (value : NBTMap) :
    List (String × NBTMap) :=
  match m with
  | [] => [(key, value)]
  | (k, v) :: rest =>
      if key < k then (key, value) :: (k, v) :: rest
      else if key = k then (key, value) :: rest
      else (k, v) :: btree_insert rest key value

/-- `NBTEditor::add_tab` from `src/main.rs`: inserts the contents under the
title in `buffers`, collects the main surface's current tabs, appends the
title, rebuilds the dock with `DockState::new`, and then either activates
the found tab or (fallback) pushes the title to the focused leaf. -/
def add_tab (ed : NBTEditor) (title : String) (contents : NBTMap) : NBTEditor :=
  let buffers := btree_insert ed.buffers title contents
  let tabs := ed.state.tabs ++ [title]
  let rebuilt := DockState.new tabs
  let state :=
    match rebuilt.find_tab title with
    | some location => rebuilt.set_active_tab location
    | none => rebuilt.push_to_focused_leaf title
  { buffers := buffers, state := state }

/-- The per-title click handler of `NBTEditor::update_central_panel` from
`src/main.rs` (the spec's `activate(title)`): when the title occupies a tab
slot that slot is made active, otherwise the title is pushed to the focused
leaf. -/
def activate (st : DockState) (title : String) : DockState :=
  match st.find_tab title with
  | some location => st.set_active_tab location
  | none => st.push_to_focused_leaf title

/-- The Open branch of `NBTEditor::update_menu_bar` from `src/main.rs`,
after the file dialog returned a path with the given derived title and
contents `bytes`: the code runs `Self::read_nbt_file(&path).unwrap()` and
then `self.add_tab(title, nbt)`.  The `.unwrap()` on a failed ingest is a
panic, modelled as `none`; `some` is a normal return with the new state. -/
def open_action (ed : NBTEditor) (codec : Codec) (bytes : List Nat)
    (title : String) : Option NBTEditor :=
  match read_nbt_file codec bytes with
  | Except.ok nbt => some (add_tab ed title nbt)
  | Except.error _ => none

theorem push_nbt_map_loop_eq_flatten (entries : List (String × NBTValue)) (c : Nat) :
    push_nbt_map_loop entries c =
      (entries.map fun kv => push_nbt_value kv.1 kv.2 c).flatten := by
  induction entries with
  | nil => rfl
  | cons kv rest ih =>
      obtain ⟨key, value⟩ := kv
      cases value <;> simp [push_nbt_map_loop, ih]

theorem collapsing_loop_append (e₁ e₂ : List (String × NBTValue)) (c : Nat) :
    collapsing_loop (e₁ ++ e₂) c =
      collapsing_loop e₁ c ++ collapsing_loop e₂ (c + e₁.length) := by
  induction e₁ generalizing c with
  | nil => simp [collapsing_loop]
  | cons kv rest ih =>
      obtain ⟨key, value⟩ := kv
      have harith : c + 1 + rest.length = c + (rest.length + 1) := by omega
      simp [collapsing_loop, ih, harith]

theorem array_loop_append (xs₁ xs₂ : List Int) (c : Nat) :
    array_loop (xs₁ ++ xs₂) c = array_loop xs₁ c ++ array_loop xs₂ (c + xs₁.length) := by
  induction xs₁ generalizing c with
  | nil => simp [array_loop]
  | cons x rest ih =>
      have harith : c + 1 + rest.length = c + (rest.length + 1) := by omega
      simp [array_loop, ih, harith]

theorem find_tab_in_some_get : ∀ (l : List String) (t : String) (i : Nat),
    find_tab_in l t = some i → l[i]? = some t := by
  intro l
  induction l with
  | nil => intro t i h; simp [find_tab_in] at h
  | cons x rest ih =>
      intro t i h
      by_cases hx : x = t
      · simp [find_tab_in, hx] at h
        subst h
        simp [hx]
      · simp [find_tab_in, hx] at h
        obtain ⟨j, hj, rfl⟩ := h
        simpa using ih t j hj

theorem find_tab_in_isSome_of_mem : ∀ (l : List String) (t : String),
    t ∈ l → (find_tab_in l t).isSome = true := by
  intro l
  induction l with
  | nil => intro t h; cases h
  | cons x rest ih =>
      intro t h
      by_cases hx : x = t
      · simp [find_tab_in, hx]
      · have hmem : t ∈ rest := by
          cases h with
          | head => exact absurd rfl hx
          | tail _ h => exact h
        have := ih t hmem
        simp [find_tab_in, hx, Option.isSome_map]
        exact this

theorem find_tab_in_eq_none_of_not_mem : ∀ (l : List String) (t : String),
    t ∉ l → find_tab_in l t = none := by
  intro l
  induction l with
  | nil => intro t _; rfl
  | cons x rest ih =>
      intro t h
      have hx : ¬ x = t := fun hxt => h (hxt ▸ List.mem_cons_self x rest)
      have hrest : t ∉ rest := fun hr => h (List.mem_cons_of_mem x hr)
      simp [find_tab_in, hx, ih t hrest]

theorem find_tab_in_append_self (l : List String) (t : String) :
    ∃ i, find_tab_in (l ++ [t]) t = some i ∧ (l ++ [t])[i]? = some t := by
  have hmem : t ∈ l ++ [t] := List.mem_append_right l (List.mem_singleton.mpr rfl)
  have hsome := find_tab_in_isSome_of_mem (l ++ [t]) t hmem
  obtain ⟨i, hi⟩ := Option.isSome_iff_exists.mp hsome
  exact ⟨i, hi, find_tab_in_some_get (l ++ [t]) t i hi⟩

/-- C1: the claim states that the tiebreaker counter threaded through
`push_nbt_map` / `push_nbt_value` / `push_collapsing` / `push_array` never
assigns the same id value to two distinct nodes within one render pass.
The code violates this: `push_nbt_map` passes the same counter value to
every entry of the map, so the root compound
`{"a": Byte 1, "b": Byte 2}`, rendered exactly as `Tabs::ui` renders the
active document (initial counter 0), pushes the identity `[0]` for both
`Byte` nodes — two distinct nodes with colliding identities. -/
theorem c1_identity_collision :
    idsOf (push_nbt_map ⟨[("a", NBTValue.byte 1), ("b", NBTValue.byte 2)]⟩ 0) =
      [[0], [0]]
    ∧ ¬ (idsOf (push_nbt_map
          ⟨[("a", NBTValue.byte 1), ("b", NBTValue.byte 2)]⟩ 0)).Nodup := by
  have h : idsOf (push_nbt_map ⟨[("a", NBTValue.byte 1), ("b", NBTValue.byte 2)]⟩ 0) =
      [[0], [0]] := by
    simp [push_nbt_map, push_nbt_map_loop, push_nbt_value, idsOf, idsOfAux]
  refine ⟨h, ?_⟩
  rw [h]
  decide

/-- C2: `read_nbt_file` routes by the first two bytes of the input: the
gzip signature `1f 8b` dispatches to the gzip decode path, each of the four
zlib signatures `78 01` / `78 5e` / `78 9c` / `78 da` dispatches to the
zlib decode path, and every other 2-byte prefix dispatches to the raw
decode path; in every case the chosen codec is invoked at stream
position 0 (the seek back to the start). -/
theorem c2_sniffing_routes (codec : Codec) (b0 b1 : Nat) (rest : List Nat) :
    ([b0, b1] = GZIP_SIGNATURE →
        read_nbt_file codec (b0 :: b1 :: rest) = codec Decoder.gzip 0 (b0 :: b1 :: rest))
    ∧ ([b0, b1] ∈ ZLIB_SIGNATURES →
        read_nbt_file codec (b0 :: b1 :: rest) = codec Decoder.zlib 0 (b0 :: b1 :: rest))
    ∧ ([b0, b1] ≠ GZIP_SIGNATURE → [b0, b1] ∉ ZLIB_SIGNATURES →
        read_nbt_file codec (b0 :: b1 :: rest) = codec Decoder.raw 0 (b0 :: b1 :: rest)) := by
  refine ⟨?_, ?_, ?_⟩
  · intro hg
    simp [read_nbt_file, hg]
  · intro hz
    have hg : ¬ [b0, b1] = GZIP_SIGNATURE := by
      simp only [ZLIB_SIGNATURES, List.mem_cons, List.not_mem_nil, or_false] at hz
      rcases hz with h | h | h | h <;> (rw [h]; decide)
    have hany : (ZLIB_SIGNATURES.any fun signature => signature = [b0, b1]) = true := by
      simp only [List.any_eq_true, decide_eq_true_eq]
      exact ⟨[b0, b1], hz, rfl⟩
    simp [read_nbt_file, hg, hany]
  · intro hg hz
    have hany : ¬ (ZLIB_SIGNATURES.any fun signature => signature = [b0, b1]) = true := by
      simp only [List.any_eq_true, decide_eq_true_eq, not_exists]
      intro s hcon
      exact hz (hcon.2 ▸ hcon.1)
    simp [read_nbt_file, hg, hany]

/-- Witness for C2 at concrete inputs: a gzip-signed stream, a zlib-signed
stream, and a raw stream are each routed to the matching decode path at
position 0. -/
theorem c2_sniffing_routes_witness :
    read_nbt_file (fun _ _ _ => Except.ok NBTMap.new) [0x1f, 0x8b, 0x00] =
      (fun _ _ _ => Except.ok NBTMap.new : Codec) Decoder.gzip 0 [0x1f, 0x8b, 0x00]
    ∧ read_nbt_file (fun _ _ _ => Except.ok NBTMap.new) [0x78, 0x9c] =
      (fun _ _ _ => Except.ok NBTMap.new : Codec) Decoder.zlib 0 [0x78, 0x9c]
    ∧ read_nbt_file (fun _ _ _ => Except.ok NBTMap.new) [0x0a, 0x00] =
      (fun _ _ _ => Except.ok NBTMap.new : Codec) Decoder.raw 0 [0x0a, 0x00] :=
  ⟨(c2_sniffing_routes (fun _ _ _ => Except.ok NBTMap.new) 0x1f 0x8b [0x00]).1 (by decide),
   (c2_sniffing_routes (fun _ _ _ => Except.ok NBTMap.new) 0x78 0x9c []).2.1 (by decide),
   (c2_sniffing_routes (fun _ _ _ => Except.ok NBTMap.new) 0x0a 0x00 []).2.2
     (by decide) (by decide)⟩

/-- C3: traversal of a fixed, unmutated tree is deterministic and
exhaustive.  Two consecutive traversals produce an identical instruction
sequence and assign each node the same identities (the walker is a pure
function of the tree and counter); `push_nbt_map` processes exactly the
entries of the map, once each, in stored order; the element loop of
`push_collapsing` and the element loop of `push_array` are sequential
compositions of one visit per element, in stored order (the append laws,
together with the singleton forms, decompose any traversal into exactly one
visit per element). -/
theorem c3_traversal_deterministic_exhaustive (m : NBTMap) (c : Nat)
    (e₁ e₂ : List (String × NBTValue)) (key : String) (v : NBTValue)
    (xs₁ xs₂ : List Int) (x : Int) :
    push_nbt_map m c = push_nbt_map m c
    ∧ idsOf (push_nbt_map m c) = idsOf (push_nbt_map m c)
    ∧ push_nbt_map m c = (m.content.map fun kv => push_nbt_value kv.1 kv.2 c).flatten
    ∧ collapsing_loop (e₁ ++ e₂) c =
        collapsing_loop e₁ c ++ collapsing_loop e₂ (c + e₁.length)
    ∧ collapsing_loop [(key, v)] c =
        [Instr.pushIdOpen (c + 1)] ++ push_nbt_value key v (c + 1) ++ [Instr.pushIdClose]
    ∧ array_loop (xs₁ ++ xs₂) c = array_loop xs₁ c ++ array_loop xs₂ (c + xs₁.length)
    ∧ array_loop [x] c =
        [Instr.pushIdOpen (c + 1), Instr.label (toString x), Instr.pushIdClose] := by
  refine ⟨rfl, rfl, ?_, collapsing_loop_append e₁ e₂ c, ?_, array_loop_append xs₁ xs₂ c, ?_⟩
  · exact push_nbt_map_loop_eq_flatten m.content c
  · simp [collapsing_loop]
  · simp [array_loop]

/-- C4: the claim states that a failed Open leaves the open documents
untouched and reports the failure as a typed error.  `read_nbt_file` does
return a typed error (here: a 1-byte stream, whose 2-byte `read_exact`
fails), and no document is installed — but the Open handler in
`update_menu_bar` calls `.unwrap()` on that result, so the failure is a
panic (`none`) instead of a reported error: the code contradicts the
spec's stated propagation policy. -/
theorem c4_failed_open_panics (codec : Codec) (ed : NBTEditor) (title : String) :
    read_nbt_file codec [0x0a] = Except.error NbtError.ioError
    ∧ open_action ed codec [0x0a] title = none := by
  constructor
  · rfl
  · rfl

/-- C5 counterexample: a Compound named `"a"` with zero entries does emit
its collapsible region, but the region is labeled `"a: "`, not with the
entry count `0` — the `"<count> entries"` label is synthesized only when
the formatted name label is empty. -/
theorem c5_counterexample :
    push_nbt_value "a" (NBTValue.compound []) 0 =
      [Instr.pushIdOpen 1, Instr.collapsingOpen "a: ",
       Instr.collapsingClose, Instr.pushIdClose]
    ∧ Instr.collapsingOpen "0 entries" ∉ push_nbt_value "a" (NBTValue.compound []) 0 := by
  have h : push_nbt_value "a" (NBTValue.compound []) 0 =
      [Instr.pushIdOpen 1, Instr.collapsingOpen "a: ",
       Instr.collapsingClose, Instr.pushIdClose] := by
    simp [push_nbt_value, push_collapsing, collapsing_loop]
  refine ⟨h, ?_⟩
  rw [h]
  decide

/-- C5 (amended): every Compound with zero entries and every empty List
still emits its collapsible region (empty containers are never suppressed);
the empty Compound's region is labeled with the entry count `"0 entries"`
exactly when its name is empty, and with `"<name>: "` otherwise. -/
theorem c5_empty_containers_render (name : String) (c : Nat) :
    push_nbt_value name (NBTValue.compound []) c =
      [Instr.pushIdOpen (c + 1),
       Instr.collapsingOpen (if name = "" then "0 entries" else name ++ ": "),
       Instr.collapsingClose, Instr.pushIdClose]
    ∧ push_nbt_value name (NBTValue.list []) c =
      [Instr.pushIdOpen (c + 1),
       Instr.collapsingOpen (if name = "" then "" else name ++ ": "),
       Instr.collapsingClose, Instr.pushIdClose] := by
  by_cases h : name = ""
  · subst h
    constructor <;> simp [push_nbt_value, push_collapsing, collapsing_loop] <;> decide
  · have h' : name ++ ": " ≠ "" := by
      intro hcontra
      have hlen := congrArg String.length hcontra
      simp [String.length_append] at hlen
      exact absurd hlen.2 (by decide)
    constructor <;> simp [push_nbt_value, push_collapsing, collapsing_loop, h, h']

/-- C6: a node whose name is the empty string suppresses the `"name: "`
prefix entirely — the scalar line is exactly the value's display text, and
in particular a line of the shape `": <value>"` is never emitted for it —
while a scalar node with a non-empty name is emitted as the single labeled
line `"<name>: <value>"`. -/
theorem c6_empty_name_suppression (name : String) (n : Int) (d : String)
    (c : Nat) :
    (name ≠ "" →
      push_nbt_value name (NBTValue.byte n) c =
        [Instr.pushIdOpen c, Instr.label (name ++ ": " ++ toString n),
         Instr.pushIdClose]
      ∧ push_nbt_value name (NBTValue.short n) c =
          [Instr.label (name ++ ": " ++ toString n)]
      ∧ push_nbt_value name (NBTValue.int n) c =
          [Instr.label (name ++ ": " ++ toString n)]
      ∧ push_nbt_value name (NBTValue.long n) c =
          [Instr.label (name ++ ": " ++ toString n)]
      ∧ push_nbt_value name (NBTValue.float d) c = [Instr.label (name ++ ": " ++ d)]
      ∧ push_nbt_value name (NBTValue.double d) c = [Instr.label (name ++ ": " ++ d)])
    ∧ (push_nbt_value "" (NBTValue.byte n) c =
        [Instr.pushIdOpen c, Instr.label (toString n), Instr.pushIdClose]
      ∧ push_nbt_value "" (NBTValue.short n) c = [Instr.label (toString n)]
      ∧ push_nbt_value "" (NBTValue.int n) c = [Instr.label (toString n)]
      ∧ push_nbt_value "" (NBTValue.long n) c = [Instr.label (toString n)]
      ∧ push_nbt_value "" (NBTValue.float d) c = [Instr.label d]
      ∧ push_nbt_value "" (NBTValue.double d) c = [Instr.label d]
      ∧ Instr.label (": " ++ toString n) ∉ push_nbt_value "" (NBTValue.int n) c) := by
  constructor
  · intro h
    refine ⟨?_, ?_, ?_, ?_, ?_, ?_⟩ <;> simp [push_nbt_value, h, String.append_assoc]
  · refine ⟨?_, ?_, ?_, ?_, ?_, ?_, ?_⟩ <;> simp [push_nbt_value]
    intro hcontra
    have hlen := congrArg String.length hcontra
    simp [String.length_append] at hlen
    exact absurd hlen (by decide)

/-- Witness for C6 at a concrete non-empty name and scalar value. -/
theorem c6_empty_name_suppression_witness :
    ("hp" : String) ≠ ""
    ∧ push_nbt_value "hp" (NBTValue.int 3) 0 =
        [Instr.label ("hp" ++ ": " ++ toString (3 : Int))] :=
  ⟨by decide, ((c6_empty_name_suppression "hp" 3 "2.5" 0).1 (by decide)).2.2.1⟩

/-- C7: activating a title on the dock: when the title already occupies a
tab slot, that slot is made the active (visible) one and the tab set is
unchanged; when it occupies no slot the operation is total (not an error)
and the title is newly placed into the focused leaf as the active slot. -/
theorem c7_activate_title (st : DockState) (title : String) (i : Nat) :
    (st.find_tab title = some i →
        activate st title = st.set_active_tab i
        ∧ (activate st title).tabs = st.tabs
        ∧ (activate st title).active = some i
        ∧ st.tabs[i]? = some title)
    ∧ (title ∈ st.tabs → (st.find_tab title).isSome = true)
    ∧ (title ∉ st.tabs →
        activate st title = st.push_to_focused_leaf title
        ∧ (activate st title).tabs = st.tabs ++ [title]
        ∧ (activate st title).active = some st.tabs.length) := by
  refine ⟨?_, ?_, ?_⟩
  · intro h
    refine ⟨?_, ?_, ?_, ?_⟩
    · simp [activate, h]
    · simp [activate, h, DockState.set_active_tab]
    · simp [activate, h, DockState.set_active_tab]
    · exact find_tab_in_some_get st.tabs title i h
  · intro h
    exact find_tab_in_isSome_of_mem st.tabs title h
  · intro h
    have hnone : st.find_tab title = none :=
      find_tab_in_eq_none_of_not_mem st.tabs title h
    refine ⟨?_, ?_, ?_⟩ <;>
      simp [activate, hnone, DockState.push_to_focused_leaf]

/-- Witness for C7: on the dock `⟨["a", "b"], some 0⟩`, activating the
present title `"b"` activates slot 1, and activating the absent title `"c"`
appends it as the new active slot. -/
theorem c7_activate_title_witness :
    activate ⟨["a", "b"], some 0⟩ "b" =
      DockState.set_active_tab ⟨["a", "b"], some 0⟩ 1
    ∧ ("c" ∉ (⟨["a", "b"], some 0⟩ : DockState).tabs)
    ∧ activate ⟨["a", "b"], some 0⟩ "c" =
        DockState.push_to_focused_leaf ⟨["a", "b"], some 0⟩ "c" := by
  refine ⟨((c7_activate_title ⟨["a", "b"], some 0⟩ "b" 1).1 (by decide)).1,
    by decide,
    ((c7_activate_title ⟨["a", "b"], some 0⟩ "c" 0).2.2 (by decide)).1⟩

/-- C8: the `String` variant emits only the raw string itself — the name
prefix is dropped even for a non-empty name — unlike the numeric scalar
variants, which prepend `"name: "` (contrasted here on the same non-empty
name `"k"`). -/
theorem c8_string_variant_drops_name :
    (∀ (name s : String) (c : Nat),
        push_nbt_value name (NBTValue.string s) c = [Instr.label s])
    ∧ push_nbt_value "k" (NBTValue.int 7) 0 = [Instr.label "k: 7"] := by
  constructor
  · intro name s c
    simp [push_nbt_value]
  · have h : push_nbt_value "k" (NBTValue.int 7) 0 =
        [Instr.label (("k" ++ ": ") ++ toString (7 : Int))] := by
      simp [push_nbt_value]
    rw [h]
    decide

/-- C9: after `add_tab(title, contents)` the dock state is rebuilt to hold
all previously visible tabs plus the new title, `find_tab(title)` succeeds
on the rebuilt dock, the found slot (which holds the title) is made the
active tab, and the `push_to_focused_leaf` fallback branch is never taken
(the result is always the `set_active_tab` arm); `buffers` receives the
contents under the title. -/
theorem c9_add_tab_find_always_succeeds (ed : NBTEditor) (title : String)
    (contents : NBTMap) :
    ∃ location,
      DockState.find_tab (DockState.new (ed.state.tabs ++ [title])) title =
        some location
      ∧ (add_tab ed title contents).state =
          DockState.set_active_tab (DockState.new (ed.state.tabs ++ [title])) location
      ∧ (add_tab ed title contents).state.tabs = ed.state.tabs ++ [title]
      ∧ (add_tab ed title contents).state.tabs[location]? = some title
      ∧ (add_tab ed title contents).state.active = some location
      ∧ (add_tab ed title contents).buffers = btree_insert ed.buffers title contents := by
  obtain ⟨i, hfind, hget⟩ := find_tab_in_append_self ed.state.tabs title
  have hfind' : DockState.find_tab (DockState.new (ed.state.tabs ++ [title])) title =
      some i := hfind
  have hstate : (add_tab ed title contents).state =
      DockState.set_active_tab (DockState.new (ed.state.tabs ++ [title])) i := by
    simp only [add_tab]
    rw [hfind']
  refine ⟨i, hfind', hstate, ?_, ?_, ?_, rfl⟩
  · rw [hstate]
    simp [DockState.set_active_tab, DockState.new]
  · rw [hstate]
    simpa [DockState.set_active_tab, DockState.new] using hget
  · rw [hstate]
    simp [DockState.set_active_tab]

/-- C10: the per-variant dispatch in `push_nbt_map` is vacuous — every
match arm calls `push_nbt_value(key, value, ui, counter)` identically — so
`push_nbt_map` is extensionally equal to the plain loop that calls
`push_nbt_value` once per (key, value) entry in stored order. -/
theorem c10_push_nbt_map_dispatch_vacuous (m : NBTMap) (c : Nat) :
    push_nbt_map m c = push_nbt_map_plain_loop m c :=
  push_nbt_map_loop_eq_flatten m.content c
